import Mathlib

/-!
Verification of the polygon spatial-statistics engine and the circular
calendar-proximity ranker of the wells API (`src/routes.wells.js` and the
stats router).  Coordinates and record fields are embedded exactly: JS
numbers that only ever hold decimal inputs and integer arithmetic become
`ℚ` / `ℤ` / `ℕ`, the transcendental geodesy (`Math.sin`, `Math.sqrt`, ...)
becomes the corresponding functions on `ℝ`, JS `null` becomes `Option`,
and the `Math.random()` stream of the Fisher–Yates shuffle becomes an
explicit argument `js : ℕ → ℕ`.
-/

/-- A JS `[lon, lat]` coordinate pair, embedded as a pair of rationals. -/
abbrev LonLat : Type := ℚ × ℚ

/-- Embedding of `clampLonLat` (`routes.wells.js`): clips longitude to
`[-180, 180]` and latitude to `[-90, 90]`. -/
def clampLonLat (p : LonLat) : LonLat :=
  (max (-180) (min 180 p.1), max (-90) (min 90 p.2))

/-- Embedding of `closeRingIfNeeded` (`routes.wells.js`): a ring of fewer
than 4 points is returned unchanged; otherwise the first point is appended
unless it already equals the last point (exact coordinate equality).  The JS
locals `first` and `last` are inlined as the two `getD` reads. -/
def closeRingIfNeeded (ring : List LonLat) : List LonLat :=
  if ring.length < 4 then ring
  else if ring.getD 0 (0, 0) = ring.getD (ring.length - 1) (0, 0) then ring
  else ring ++ [ring.getD 0 (0, 0)]

/-- Embedding of the ring-validation path shared by `POST /wells/polygon/query`
and `POST /wells/polygon/stats`: the request schema (`polygonBodySchema`)
requires at least 3 coordinate pairs in the ring; the ring is then clamped and
closed, and rejected when still shorter than 4 points.  Returns the accepted
ring, and `none` exactly when the endpoint responds with a 400 validation
error before any computation. -/
def polygonRingCheck (coords : List LonLat) : Option (List LonLat) :=
  if coords.length < 3 then none
  else if (closeRingIfNeeded (coords.map clampLonLat)).length < 4 then none
  else some (closeRingIfNeeded (coords.map clampLonLat))

lemma closeRingIfNeeded_of_lt (r : List LonLat) (h : r.length < 4) :
    closeRingIfNeeded r = r := by
  unfold closeRingIfNeeded
  rw [if_pos h]

lemma closeRingIfNeeded_cases (r : List LonLat) (h4 : 4 ≤ r.length) :
    (r.getD 0 (0, 0) = r.getD (r.length - 1) (0, 0) ∧ closeRingIfNeeded r = r) ∨
    (r.getD 0 (0, 0) ≠ r.getD (r.length - 1) (0, 0) ∧
      closeRingIfNeeded r = r ++ [r.getD 0 (0, 0)]) := by
  unfold closeRingIfNeeded
  rw [if_neg (by omega)]
  by_cases hfl : r.getD 0 (0, 0) = r.getD (r.length - 1) (0, 0)
  · exact Or.inl ⟨hfl, by rw [if_pos hfl]⟩
  · exact Or.inr ⟨hfl, by rw [if_neg hfl]⟩

lemma closeRingIfNeeded_length_ge (r : List LonLat) (h4 : 4 ≤ r.length) :
    4 ≤ (closeRingIfNeeded r).length := by
  rcases closeRingIfNeeded_cases r h4 with ⟨_, h⟩ | ⟨_, h⟩
  · rw [h]; exact h4
  · rw [h]; simp; omega

/-- C1: the spec promises that every ring with at least 3 points before
closing is accepted, and that validation fails exactly below 3 points.  The
code instead rejects every 3-point ring: `closeRingIfNeeded` skips rings of
fewer than 4 points, so an open triangle is never closed and then fails the
post-closing `ring.length < 4` check, contradicting the endpoint's own error
message ("Polygon ring must have at least 3 points (and will be closed).")
and the schema comment ("at least triangle before closing").  Acceptance in
the code is equivalent to having at least 4 points before closing. -/
theorem c1_three_point_ring_rejected :
    polygonRingCheck [(0, 0), (1, 0), (0, 1)] = none ∧
    ([(0, 0), (1, 0), (0, 1)] : List LonLat).length = 3 ∧
    (∀ coords : List LonLat, (polygonRingCheck coords).isSome ↔ 4 ≤ coords.length) := by
  refine ⟨by decide, by decide, fun coords => ?_⟩
  have hlen : (coords.map clampLonLat).length = coords.length := by simp
  by_cases h3 : coords.length < 3
  · rw [polygonRingCheck, if_pos h3]
    simp only [Option.isSome_none, Bool.false_eq_true, false_iff]
    omega
  · rw [polygonRingCheck, if_neg h3]
    by_cases h4 : 4 ≤ coords.length
    · have hc := closeRingIfNeeded_length_ge (coords.map clampLonLat) (by omega)
      rw [if_neg (by omega)]
      simp only [Option.isSome_some, true_iff]
      exact h4
    · have hunch : closeRingIfNeeded (coords.map clampLonLat) = coords.map clampLonLat :=
        closeRingIfNeeded_of_lt _ (by omega)
      rw [hunch, if_pos (by omega)]
      simp only [Option.isSome_none, Bool.false_eq_true, false_iff]
      omega

lemma head?_eq_some_getD {l : List LonLat} (h : l ≠ []) :
    l.head? = some (l.getD 0 (0, 0)) := by
  have hl : 0 < l.length := List.length_pos.2 h
  rw [List.head?_eq_getElem?, List.getD_eq_getElem?_getD, List.getElem?_eq_getElem hl]
  rfl

lemma getLast?_eq_some_getD {l : List LonLat} (h : l ≠ []) :
    l.getLast? = some (l.getD (l.length - 1) (0, 0)) := by
  have hl : l.length - 1 < l.length := by
    have := List.length_pos.2 h
    omega
  rw [List.getLast?_eq_getElem?, List.getD_eq_getElem?_getD, List.getElem?_eq_getElem hl]
  rfl

lemma getD_append_first (r : List LonLat) (p : LonLat) (h : 0 < r.length) :
    (r ++ [p]).getD 0 (0, 0) = r.getD 0 (0, 0) := by
  rw [List.getD_eq_getElem?_getD, List.getElem?_append_left h, ← List.getD_eq_getElem?_getD]

lemma getD_append_last (r : List LonLat) (p : LonLat) :
    (r ++ [p]).getD ((r ++ [p]).length - 1) (0, 0) = p := by
  have hlen : (r ++ [p]).length = r.length + 1 := by simp
  rw [hlen, Nat.add_sub_cancel, List.getD_eq_getElem?_getD,
    List.getElem?_append_right (Nat.le_refl _), Nat.sub_self]
  rfl

/-- C10: `closeRingIfNeeded` is idempotent, and on every ring of length at
least 4 its output starts and ends with the same point. -/
theorem c10_closeRingIfNeeded_idempotent :
    (∀ r : List LonLat, closeRingIfNeeded (closeRingIfNeeded r) = closeRingIfNeeded r) ∧
    (∀ r : List LonLat, 4 ≤ r.length →
      (closeRingIfNeeded r).head? = (closeRingIfNeeded r).getLast?) := by
  constructor
  · intro r
    by_cases h4 : 4 ≤ r.length
    · rcases closeRingIfNeeded_cases r h4 with ⟨_, h⟩ | ⟨_, h⟩
      · rw [h]; exact h
      · rw [h]
        have hne : r ≠ [] := by
          intro hr; rw [hr] at h4; simp at h4
        have hfirst := getD_append_first r (r.getD 0 (0, 0)) (by omega)
        have hlast := getD_append_last r (r.getD 0 (0, 0))
        unfold closeRingIfNeeded
        rw [if_neg (by simp; omega), if_pos (by rw [hfirst, hlast])]
    · have h := closeRingIfNeeded_of_lt r (by omega)
      rw [h]; exact h
  · intro r h4
    have hne : r ≠ [] := by
      intro hr; rw [hr] at h4; simp at h4
    rcases closeRingIfNeeded_cases r h4 with ⟨hfl, h⟩ | ⟨hfl, h⟩
    · rw [h, head?_eq_some_getD hne, getLast?_eq_some_getD hne, hfl]
    · rw [h]
      have hne2 : r ++ [r.getD 0 (0, 0)] ≠ [] := by simp
      rw [head?_eq_some_getD hne2, getLast?_eq_some_getD hne2,
        getD_append_first r _ (by omega), getD_append_last r _]

/-- Witness for C10 at a concrete open square ring. -/
theorem c10_witness :
    4 ≤ ([(0, 0), (1, 0), (1, 1), (0, 1)] : List LonLat).length ∧
    (closeRingIfNeeded [(0, 0), (1, 0), (1, 1), (0, 1)]).head? =
      (closeRingIfNeeded [(0, 0), (1, 0), (1, 1), (0, 1)]).getLast? :=
  ⟨by decide, c10_closeRingIfNeeded_idempotent.2 _ (by decide)⟩

/-- Month lengths of the fixed non-leap reference year 2001 used by the
`dayOfYear` helper of `GET /stats/closest-birthday`. -/
def monthLengths : List ℕ := [31, 28, 31, 30, 31, 30, 31, 31, 30, 31, 30, 31]

/-- Embedding of `dayOfYear` (stats router): the number of days from Jan 1 of
the reference year 2001 to the date (m, d), 1-indexed.  For calendar-valid
(m, d) the JS `Date.UTC` arithmetic equals the cumulative lengths of the
months before `m` plus `d`. -/
def dayOfYear (m d : ℕ) : ℤ :=
  ((monthLengths.take (m - 1)).sum : ℤ) + d

/-- Embedding of `circularDiff` (stats router). -/
def circularDiff (a b : ℤ) : ℤ :=
  min |a - b| (365 - |a - b|)

/-- C2: `circularDiff` is the wrap-around day distance
`min(|a-b|, 365-|a-b|)`, and Jan 1 and Dec 31 are 1 day apart, not 364. -/
theorem c2_circularDiff_spec :
    (∀ a b : ℤ, circularDiff a b = min |a - b| (365 - |a - b|)) ∧
    circularDiff (dayOfYear 1 1) (dayOfYear 12 31) = 1 ∧
    circularDiff (dayOfYear 1 1) (dayOfYear 12 31) ≠ 364 :=
  ⟨fun _ _ => rfl, by decide, by decide⟩

/-- A calendar-valid (month, day) pair of the non-leap reference year. -/
def validMonthDay (m d : ℕ) : Prop :=
  1 ≤ m ∧ m ≤ 12 ∧ 1 ≤ d ∧ d ≤ monthLengths.getD (m - 1) 0

instance validMonthDay.decidable (m d : ℕ) : Decidable (validMonthDay m d) := by
  unfold validMonthDay
  infer_instance

/-- A record of the closest-birthday ranking: the annotated circular day
distance plus the parsed month and day. -/
structure RankedRec where
  distance_days : ℤ
  status_month : ℕ
  status_day : ℕ
deriving DecidableEq

/-- Embedding of the `ranked` pipeline of `GET /stats/closest-birthday`: each
document's `status_date` string is abstracted to its `parseMonthDay` result
(`none` when the parse fails, in which case the document is dropped); the
survivors are annotated with the circular distance to the target, sorted
ascending by distance and truncated to `limit`.  The JS stable
`Array.prototype.sort` on integer keys is embedded as insertion sort. -/
def rankedClosest (docs : List (Option (ℕ × ℕ))) (tm td : ℕ) (limit : ℕ) :
    List RankedRec :=
  List.take limit (List.insertionSort (fun x y => x.distance_days ≤ y.distance_days)
    (docs.filterMap (fun mdOpt => Option.map (fun md : ℕ × ℕ =>
      (⟨circularDiff (dayOfYear md.1 md.2) (dayOfYear tm td), md.1, md.2⟩ : RankedRec)) mdOpt)))

lemma dayOfYear_bounds {m d : ℕ} (h : validMonthDay m d) :
    1 ≤ dayOfYear m d ∧ dayOfYear m d ≤ 365 := by
  obtain ⟨h1, h2, h3, h4⟩ := h
  interval_cases m <;>
    simp only [monthLengths, dayOfYear] at h4 ⊢ <;>
    norm_num at h4 ⊢ <;> omega

lemma circularDiff_bounds {a b : ℤ} (ha1 : 1 ≤ a) (ha2 : a ≤ 365)
    (hb1 : 1 ≤ b) (hb2 : b ≤ 365) :
    0 ≤ circularDiff a b ∧ circularDiff a b ≤ 182 := by
  rcases abs_cases (a - b) with ⟨he, h0⟩ | ⟨he, h0⟩ <;>
    simp only [circularDiff, he, min_def] <;> split <;> omega

/-- C9: every record produced by the closest-birthday ranker carries an
integer circular day distance in [0, 182], for every calendar-valid target
and every batch whose parsed record dates are calendar-valid. -/
theorem c9_ranked_distance_in_range
    (docs : List (Option (ℕ × ℕ))) (tm td limit : ℕ)
    (htarget : validMonthDay tm td)
    (hdocs : ∀ md ∈ docs, ∀ p ∈ md, validMonthDay p.1 p.2) :
    ∀ r ∈ rankedClosest docs tm td limit,
      0 ≤ r.distance_days ∧ r.distance_days ≤ 182 := by
  intro r hr
  unfold rankedClosest at hr
  have hr2 := List.take_subset _ _ hr
  have hr3 := (List.perm_insertionSort
    (fun x y : RankedRec => x.distance_days ≤ y.distance_days) _).subset hr2
  rw [List.mem_filterMap] at hr3
  obtain ⟨mdOpt, hmem, hmap⟩ := hr3
  rcases mdOpt with _ | md
  · exact absurd hmap (by simp)
  · have heq : (⟨circularDiff (dayOfYear md.1 md.2) (dayOfYear tm td),
        md.1, md.2⟩ : RankedRec) = r := by
      simpa using hmap
    have hvalid : validMonthDay md.1 md.2 :=
      hdocs _ hmem md rfl
    have hb1 := dayOfYear_bounds hvalid
    have hb2 := dayOfYear_bounds htarget
    have := circularDiff_bounds hb1.1 hb1.2 hb2.1 hb2.2
    rw [← heq]
    exact this

/-- Witness for C9: target Jan 1, one record dated Dec 31, distance 1. -/
theorem c9_witness :
    0 ≤ (⟨1, 12, 31⟩ : RankedRec).distance_days ∧
      (⟨1, 12, 31⟩ : RankedRec).distance_days ≤ 182 :=
  c9_ranked_distance_in_range [some (12, 31)] 1 1 5 (by decide) (by decide)
    ⟨1, 12, 31⟩ (by decide)

/-- Embedding of `medianDate` (`routes.wells.js`).  The JS date parsing
`new Date(d).getTime()` combined with the `Number.isFinite` filter is
abstracted to its result: each input entry is `some t` (an integer epoch
timestamp in milliseconds) or `none` (absent or unparseable, dropped).  The
ascending `sort((a, b) => a - b)` on integers is embedded as insertion sort
(the ascending sorted permutation of integers is unique).  The even-count
branch is JS `Math.round((a + b) / 2)`, which on integer timestamps equals
the floor of `(a + b + 1) / 2` (round half up), embedded via `Int.fdiv`.
The `getD` defaults are never reached: both indices are below the length. -/
def medianDate (dates : List (Option ℤ)) : Option ℤ :=
  if ((dates.filterMap id).insertionSort (· ≤ ·)).length = 0 then none
  else if ((dates.filterMap id).insertionSort (· ≤ ·)).length % 2 = 1 then
    some (((dates.filterMap id).insertionSort (· ≤ ·)).getD
      (((dates.filterMap id).insertionSort (· ≤ ·)).length / 2) 0)
  else
    some ((((dates.filterMap id).insertionSort (· ≤ ·)).getD
        (((dates.filterMap id).insertionSort (· ≤ ·)).length / 2 - 1) 0 +
      ((dates.filterMap id).insertionSort (· ≤ ·)).getD
        (((dates.filterMap id).insertionSort (· ≤ ·)).length / 2) 0 + 1).fdiv 2)

/-- Counterexample to C3 as stated: for parsed timestamps 0 ms and 1 ms the
code returns 1 ms (`Math.round(0.5) = 1`), not their arithmetic mean 1/2. -/
theorem c3_counterexample :
    medianDate [some 0, some 1] = some 1 ∧
    ¬ ((1 : ℚ) = ((0 : ℚ) + 1) / 2) := by
  constructor
  · decide
  · norm_num

/-- C3 (amended): an empty date list yields null, a single date yields that
date, an odd-count list yields the central element of the ascending-sorted
parsed timestamps, and an even-count list yields the arithmetic mean of the
two central timestamps rounded half-up to an integer millisecond
(`⌊(a + b + 1) / 2⌋`); in particular timestamps at day 0 and day 10 yield
exactly day 5.  The sorted order is characterized abstractly: `ts` is any
sorted permutation of the parsed timestamps. -/
theorem c3_medianDate_amended :
    medianDate [] = none ∧
    (∀ t : ℤ, medianDate [some t] = some t) ∧
    (∀ (dates : List (Option ℤ)) (ts : List ℤ),
      (dates.filterMap id).Perm ts → ts.Sorted (· ≤ ·) →
        (ts.length % 2 = 1 →
          medianDate dates = some (ts.getD (ts.length / 2) 0)) ∧
        (ts.length ≠ 0 → ts.length % 2 = 0 →
          medianDate dates =
            some ((ts.getD (ts.length / 2 - 1) 0 + ts.getD (ts.length / 2) 0 + 1).fdiv 2))) ∧
    medianDate [some 0, some 864000000] = some 432000000 := by
  have hsortEq : ∀ (dates : List (Option ℤ)) (ts : List ℤ),
      (dates.filterMap id).Perm ts → ts.Sorted (· ≤ ·) →
      (dates.filterMap id).insertionSort (· ≤ ·) = ts := by
    intro dates ts hperm hsorted
    exact List.eq_of_perm_of_sorted
      ((List.perm_insertionSort (· ≤ ·) _).trans hperm)
      (List.sorted_insertionSort (· ≤ ·) _) hsorted
  refine ⟨by decide, fun t => ?_, fun dates ts hperm hsorted => ?_, by decide⟩
  · unfold medianDate
    norm_num [List.insertionSort]
  · have he := hsortEq dates ts hperm hsorted
    constructor
    · intro hodd
      have hne : ts.length ≠ 0 := by omega
      unfold medianDate
      rw [he, if_neg hne, if_pos hodd]
    · intro hne heven
      unfold medianDate
      rw [he, if_neg hne, if_neg (by omega)]

/-- Witness for C3 (amended), odd-count case: the parsed timestamps of
`[10, 0, null, 4]` sort to `[0, 4, 10]` and the median is the central 4. -/
theorem c3_witness :
    medianDate [some 10, some 0, none, some 4] =
      some (([0, 4, 10] : List ℤ).getD (([0, 4, 10] : List ℤ).length / 2) 0) :=
  (c3_medianDate_amended.2.2.1 [some 10, some 0, none, some 4] [0, 4, 10]
    (by decide) (by decide)).1 (by decide)

/-- A row of the `raw_for_metrics` facet of `POST /wells/polygon/stats`:
normalized company (`none` = absent upstream), parsed status date, and the
point coordinates when present and finite. -/
structure WellRow where
  company : Option String
  status_date : Option ℤ
  coords : Option LonLat
deriving DecidableEq

/-- The company key of each metric row as read by the HHI block:
`r.company ?? "Unknown"`. -/
def companyKeys (rows : List WellRow) : List String :=
  rows.map (fun r => r.company.getD ("Unknown"))

/-- Embedding of the HHI block of `POST /wells/polygon/stats`
(`routes.wells.js` 523-537): `null` when the total `count` is 0, otherwise
the sum over the distinct company keys of `(count_k / count)²`.  The JS
`Map` built by the `companyCounts` loop is embedded as the list of distinct
keys `keys.dedup`, each with `keys.count k` occurrences. -/
def hhi (keys : List String) (count : ℕ) : Option ℚ :=
  if count = 0 then none
  else some ((keys.dedup.map (fun k => ((keys.count k : ℚ) / (count : ℚ)) ^ 2)).sum)

/-- The HHI produced by the whole polygon-stats pipeline: the metric rows are
the `raw_for_metrics` facet (the matched batch truncated by `$limit` to 10000
rows) while `count` comes from the `total` facet (the full match count). -/
def statsHHI (batch : List WellRow) : Option ℚ :=
  hhi (companyKeys (batch.take 10000)) batch.length

lemma dedup_replicate (c : String) (k : ℕ) (hk : 0 < k) :
    (List.replicate k c).dedup = [c] := by
  induction k with
  | zero => omega
  | succ n ih =>
    rcases Nat.eq_zero_or_pos n with h0 | hpos
    · subst h0
      simp
    · rw [List.replicate_succ,
        List.dedup_cons_of_mem (by rw [List.mem_replicate]; exact ⟨by omega, rfl⟩)]
      exact ih hpos

lemma dedup_toFinset (l : List String) : l.dedup.toFinset = l.toFinset := by
  ext a
  simp [List.mem_toFinset, List.mem_dedup]

lemma hhi_sum_eq_finset (l : List String) (n : ℕ) :
    (l.dedup.map (fun k => ((l.count k : ℚ) / (n : ℚ)) ^ 2)).sum =
      ∑ a ∈ l.toFinset, ((l.count a : ℚ) / (n : ℚ)) ^ 2 := by
  rw [← List.sum_toFinset _ (List.nodup_dedup l), dedup_toFinset]

lemma count_share_sum (l : List String) (hl : l ≠ []) :
    ∑ a ∈ l.toFinset, ((l.count a : ℚ) / (l.length : ℚ)) = 1 := by
  have hn : (l.length : ℚ) ≠ 0 := by
    have := List.length_pos.2 hl
    exact Nat.cast_ne_zero.mpr (by omega)
  rw [← Finset.sum_div]
  have hsum : (∑ a ∈ l.toFinset, (l.count a : ℚ)) = (l.length : ℚ) := by
    rw [← Nat.cast_sum]
    exact_mod_cast congrArg Nat.cast (List.sum_toFinset_count_eq_length l)
  rw [hsum, div_self hn]

lemma hhi_share_range (l : List String) (hl : l ≠ []) :
    1 / ((l.dedup.length : ℚ)) ≤
      (∑ a ∈ l.toFinset, ((l.count a : ℚ) / (l.length : ℚ)) ^ 2) ∧
    (∑ a ∈ l.toFinset, ((l.count a : ℚ) / (l.length : ℚ)) ^ 2) ≤ 1 := by
  have hnpos : 0 < l.length := List.length_pos.2 hl
  have hnQ : (0 : ℚ) < (l.length : ℚ) := by exact_mod_cast hnpos
  constructor
  · have hcs := @sq_sum_le_card_mul_sum_sq String ℚ _ _ l.toFinset
      (fun a => (l.count a : ℚ) / (l.length : ℚ))
    rw [count_share_sum l hl, one_pow] at hcs
    have hcard : l.toFinset.card = l.dedup.length := List.card_toFinset l
    have hcardpos : 0 < l.toFinset.card := by
      rw [Finset.card_pos]
      obtain ⟨a, ha⟩ := List.exists_mem_of_ne_nil l hl
      exact ⟨a, List.mem_toFinset.2 ha⟩
    have hNQ : (0 : ℚ) < (l.dedup.length : ℚ) := by
      rw [← hcard]
      exact_mod_cast hcardpos
    rw [div_le_iff₀ hNQ, mul_comm]
    rw [hcard] at hcs
    exact hcs
  · have hle : ∀ a ∈ l.toFinset,
        ((l.count a : ℚ) / (l.length : ℚ)) ^ 2 ≤ (l.count a : ℚ) / (l.length : ℚ) := by
      intro a _
      have h0 : (0 : ℚ) ≤ (l.count a : ℚ) / (l.length : ℚ) := by positivity
      have h1 : (l.count a : ℚ) / (l.length : ℚ) ≤ 1 := by
        rw [div_le_one hnQ]
        exact_mod_cast List.count_le_length a l
      calc ((l.count a : ℚ) / (l.length : ℚ)) ^ 2
          ≤ ((l.count a : ℚ) / (l.length : ℚ)) ^ 1 :=
            pow_le_pow_of_le_one h0 h1 (by norm_num)
        _ = (l.count a : ℚ) / (l.length : ℚ) := pow_one _
    calc (∑ a ∈ l.toFinset, ((l.count a : ℚ) / (l.length : ℚ)) ^ 2)
        ≤ ∑ a ∈ l.toFinset, ((l.count a : ℚ) / (l.length : ℚ)) :=
          Finset.sum_le_sum hle
      _ = 1 := count_share_sum l hl

/-- C4: the HHI is null when the total is 0; a single category holding 100%
of the population gives HHI = 1; N equal-share categories give HHI = 1/N; in
particular 4 equal categories give 1/4. -/
theorem c4_hhi_spec :
    (∀ keys : List String, hhi keys 0 = none) ∧
    (∀ (c : String) (k : ℕ), 0 < k → hhi (List.replicate k c) k = some 1) ∧
    (∀ (keys : List String) (N k : ℕ), 0 < N → 0 < k →
      keys.dedup.length = N → (∀ c ∈ keys.dedup, keys.count c = k) →
      hhi keys (N * k) = some (1 / (N : ℚ))) ∧
    hhi ["A", "B", "C", "D"] 4 = some (1 / 4) := by
  have hthird : ∀ (keys : List String) (N k : ℕ), 0 < N → 0 < k →
      keys.dedup.length = N → (∀ c ∈ keys.dedup, keys.count c = k) →
      hhi keys (N * k) = some (1 / (N : ℚ)) := by
    intro keys N k hN hk hdedup hcount
    rw [hhi, if_neg (Nat.mul_ne_zero (by omega) (by omega))]
    have hmap : keys.dedup.map (fun c => ((keys.count c : ℚ) / ((N * k : ℕ) : ℚ)) ^ 2) =
        keys.dedup.map (fun _ => ((k : ℚ) / ((N * k : ℕ) : ℚ)) ^ 2) :=
      List.map_congr_left (fun c hc => by rw [hcount c hc])
    rw [hmap, List.map_const', List.sum_replicate, hdedup, nsmul_eq_mul]
    have hkQ : (k : ℚ) ≠ 0 := Nat.cast_ne_zero.mpr (by omega)
    have hNQ : (N : ℚ) ≠ 0 := Nat.cast_ne_zero.mpr (by omega)
    push_cast
    rw [div_pow]
    field_simp
    ring
  refine ⟨fun keys => by rw [hhi, if_pos rfl], fun c k hk => ?_, hthird, ?_⟩
  · rw [hhi, if_neg (by omega), dedup_replicate c k hk]
    have hcount : (List.replicate k c).count c = k := by
      rw [List.count_replicate]
      simp
    have hkQ : (k : ℚ) ≠ 0 := Nat.cast_ne_zero.mpr (by omega)
    simp [hcount, div_self hkQ]
  · have h4 := hthird ["A", "B", "C", "D"] 4 1 (by norm_num) (by norm_num)
      (by decide) (by decide)
    norm_num at h4
    exact h4

/-- Witness for C4: a single category of 3 records gives HHI 1, and 4 equal
singleton categories give HHI 1/4. -/
theorem c4_witness :
    hhi (List.replicate 3 ("X")) 3 = some 1 ∧
    hhi ["A", "B", "C", "D"] (4 * 1) = some (1 / ((4 : ℕ) : ℚ)) :=
  ⟨c4_hhi_spec.2.1 ("X") 3 (by decide),
    c4_hhi_spec.2.2.1 ["A", "B", "C", "D"] 4 1 (by decide) (by decide)
      (by decide) (by decide)⟩

/-- Counterexample to C5 as stated: a batch of 10001 identical rows (one
single company category, so N = 1) gets HHI `(10000/10001)² < 1 = 1/N`,
because the `raw_for_metrics` facet is truncated by `$limit` to 10000 rows
while the shares are divided by the full `total` count of 10001. -/
theorem c5_counterexample :
    List.replicate 10001 (⟨some ("A"), none, none⟩ : WellRow) ≠ [] ∧
    (companyKeys (List.replicate 10001 (⟨some ("A"), none, none⟩ : WellRow))).dedup.length
      = 1 ∧
    statsHHI (List.replicate 10001 (⟨some ("A"), none, none⟩ : WellRow)) =
      some (((10000 : ℚ) / 10001) ^ 2) ∧
    ¬ (1 / ((1 : ℕ) : ℚ) ≤ ((10000 : ℚ) / 10001) ^ 2) := by
  refine ⟨?_, ?_, ?_, by norm_num⟩
  · exact List.ne_nil_of_length_pos (by rw [List.length_replicate]; omega)
  · have h1 : companyKeys (List.replicate 10001 (⟨some ("A"), none, none⟩ : WellRow)) =
        List.replicate 10001 ("A") := by
      unfold companyKeys
      rw [List.map_replicate]
      rfl
    rw [h1, dedup_replicate ("A") 10001 (by omega)]
    rfl
  · have htake : (List.replicate 10001 (⟨some ("A"), none, none⟩ : WellRow)).take 10000 =
        List.replicate 10000 (⟨some ("A"), none, none⟩ : WellRow) := by
      rw [List.take_replicate, min_eq_left (by norm_num)]
    have hck : companyKeys (List.replicate 10000 (⟨some ("A"), none, none⟩ : WellRow)) =
        List.replicate 10000 ("A") := by
      unfold companyKeys
      rw [List.map_replicate]
      rfl
    have hlen : (List.replicate 10001 (⟨some ("A"), none, none⟩ : WellRow)).length = 10001 :=
      List.length_replicate 10001 _
    rw [statsHHI, htake, hck, hlen, hhi, if_neg (by norm_num),
      dedup_replicate ("A") 10000 (by omega)]
    simp only [List.map_cons, List.map_nil, List.sum_cons, List.sum_nil,
      List.count_replicate, beq_self_eq_true, if_pos]
    norm_num

/-- C5 (amended): for every non-empty batch of at most 10000 records (so the
`raw_for_metrics` `$limit` does not truncate), the polygon-stats HHI is
present and lies in [1/N, 1] where N is the number of distinct company
categories; for an empty batch it is null.  (Beyond 10000 records the facet
truncation can push the HHI below 1/N, see the counterexample.) -/
theorem c5_statsHHI_range :
    statsHHI [] = none ∧
    ∀ batch : List WellRow, batch ≠ [] → batch.length ≤ 10000 →
      (statsHHI batch).isSome = true ∧
      1 / (((companyKeys batch).dedup.length : ℕ) : ℚ) ≤ (statsHHI batch).getD 0 ∧
      (statsHHI batch).getD 0 ≤ 1 := by
  refine ⟨rfl, fun batch hne hlen => ?_⟩
  have htake : batch.take 10000 = batch := List.take_of_length_le hlen
  have hkeys : companyKeys batch ≠ [] := by
    unfold companyKeys
    intro h
    exact hne (List.map_eq_nil_iff.mp h)
  have hlenk : (companyKeys batch).length = batch.length := by
    unfold companyKeys
    exact List.length_map _ _
  have hcount0 : batch.length ≠ 0 := by
    intro h
    exact hne (List.length_eq_zero.mp h)
  rw [statsHHI, htake, hhi, if_neg hcount0]
  have hrange := hhi_share_range (companyKeys batch) hkeys
  rw [hlenk] at hrange
  refine ⟨rfl, ?_, ?_⟩
  · rw [Option.getD_some, hhi_sum_eq_finset]
    exact hrange.1
  · rw [Option.getD_some, hhi_sum_eq_finset]
    exact hrange.2

/-- Witness for C5 (amended) on a concrete 2-row batch with two categories. -/
theorem c5_witness :
    (statsHHI [(⟨some ("A"), none, none⟩ : WellRow), ⟨none, none, none⟩]).isSome = true ∧
    1 / (((companyKeys [(⟨some ("A"), none, none⟩ : WellRow),
        ⟨none, none, none⟩]).dedup.length : ℕ) : ℚ) ≤
      (statsHHI [(⟨some ("A"), none, none⟩ : WellRow), ⟨none, none, none⟩]).getD 0 ∧
    (statsHHI [(⟨some ("A"), none, none⟩ : WellRow), ⟨none, none, none⟩]).getD 0 ≤ 1 :=
  c5_statsHHI_range.2 [⟨some ("A"), none, none⟩, ⟨none, none, none⟩]
    (by decide) (by decide)

/-- Degrees to radians, the `toRad` helper defined identically inside
`haversineMeters` and `polygonAreaMeters2`. -/
noncomputable def toRad (d : ℚ) : ℝ := (d : ℝ) * Real.pi / 180

/-- Embedding of `haversineMeters` (`routes.wells.js`): great-circle distance
with Earth radius 6371000 m, `2·R·asin(√h)` over the haversine `h`. -/
noncomputable def haversineMeters (a b : LonLat) : ℝ :=
  2 * 6371000 * Real.arcsin (Real.sqrt
    (Real.sin (toRad (b.2 - a.2) / 2) ^ 2 +
      Real.cos (toRad a.2) * Real.cos (toRad b.2) * Real.sin (toRad (b.1 - a.1) / 2) ^ 2))

/-- Embedding of `polygonAreaMeters2` (`routes.wells.js`): over each
consecutive edge of the ring, accumulate
`(lon2r - lon1r) * (2 + sin(lat1r) + sin(lat2r))`; the result is
`|sum| * R² / 2` with R = 6378137 m.  The index loop `i = 0 .. length - 2`
over the pairs `(ring[i], ring[i+1])` is embedded as `ring.zip ring.tail`. -/
noncomputable def polygonAreaMeters2 (ringLonLat : List LonLat) : ℝ :=
  |((ringLonLat.zip ringLonLat.tail).map (fun e =>
      (toRad e.2.1 - toRad e.1.1) *
        (2 + Real.sin (toRad e.1.2) + Real.sin (toRad e.2.2)))).sum| *
    ((6378137 : ℝ) * 6378137) / 2

/-- The inner `j` loop of `meanNearestNeighborDistance`: minimum of the
distances from `p` to the points of `qs` (in the JS code `best` starts at
`Infinity` and is folded with `min` over all `j ≠ i`; for the nonempty `qs`
arising when the working set has at least 2 points this fold is exactly the
minimum below; the `[]` value 0 is never reached there). -/
noncomputable def minDist (p : LonLat) : List LonLat → ℝ
  | [] => 0
  | [q] => haversineMeters p q
  | q :: q2 :: qs => min (haversineMeters p q) (minDist p (q2 :: qs))

/-- The outer `i` loop of `meanNearestNeighborDistance`: the sum over all
indices of each point's minimum distance to the other points of the same
list (`eraseIdx i` is the `j ≠ i` sweep in index order). -/
noncomputable def nndTotal (l : List LonLat) : ℝ :=
  ((List.range l.length).map (fun i => minDist (l.getD i (0, 0)) (l.eraseIdx i))).sum

/-- One swap of the Fisher-Yates loop: positions `i` and `j` exchanged (both
reads happen before the writes, as in the JS destructuring assignment). -/
def fyStep (l : List LonLat) (i j : ℕ) : List LonLat :=
  (l.set i (l.getD j (0, 0))).set j (l.getD i (0, 0))

/-- The Fisher-Yates loop of `meanNearestNeighborDistance` with the random
draws made explicit: at step `i` the JS `Math.floor(Math.random() * (i + 1))`
is an arbitrary value in `[0, i]`, supplied here as `js i % (i + 1)`. -/
def fyAux (js : ℕ → ℕ) : ℕ → List LonLat → List LonLat
  | 0, l => l
  | i + 1, l => fyAux js i (fyStep l (i + 1) (js (i + 1) % (i + 2)))

/-- The complete shuffle: the JS loop runs `i` from `length - 1` down to 1. -/
def fisherYates (js : ℕ → ℕ) (l : List LonLat) : List LonLat :=
  fyAux js (l.length - 1) l

lemma getD_cons_set_perm (a : LonLat) :
    ∀ (t : List LonLat) (m : ℕ), m < t.length →
      (t.getD m (0, 0) :: t.set m a).Perm (a :: t) := by
  intro t
  induction t with
  | nil =>
    intro m hm
    simp at hm
  | cons b t2 ih =>
    intro m hm
    cases m with
    | zero =>
      simp only [List.getD_cons_zero, List.set_cons_zero]
      exact List.Perm.swap a b t2
    | succ k =>
      simp only [List.getD_cons_succ, List.set_cons_succ]
      have hk : k < t2.length := by
        simp only [List.length_cons] at hm
        omega
      have h1 : (t2.getD k (0, 0) :: b :: t2.set k a).Perm
          (b :: t2.getD k (0, 0) :: t2.set k a) :=
        List.Perm.swap b (t2.getD k (0, 0)) _
      have h2 := (ih k hk).cons b
      have h3 : (b :: a :: t2).Perm (a :: b :: t2) := List.Perm.swap a b t2
      exact h1.trans (h2.trans h3)

lemma fyStep_perm :
    ∀ (l : List LonLat) (i j : ℕ), i < l.length → j < l.length →
      (fyStep l i j).Perm l := by
  intro l
  induction l with
  | nil =>
    intro i j hi _
    simp at hi
  | cons a t ih =>
    intro i j hi hj
    have hi2 : i < t.length + 1 := by simpa using hi
    have hj2 : j < t.length + 1 := by simpa using hj
    cases i with
    | zero =>
      cases j with
      | zero =>
        unfold fyStep
        simp only [List.getD_cons_zero, List.set_cons_zero]
        exact List.Perm.refl _
      | succ m =>
        unfold fyStep
        simp only [List.getD_cons_zero, List.getD_cons_succ,
          List.set_cons_zero, List.set_cons_succ]
        exact getD_cons_set_perm a t m (by omega)
    | succ n =>
      cases j with
      | zero =>
        unfold fyStep
        simp only [List.getD_cons_zero, List.getD_cons_succ,
          List.set_cons_zero, List.set_cons_succ]
        exact getD_cons_set_perm a t n (by omega)
      | succ m =>
        unfold fyStep
        simp only [List.getD_cons_succ, List.set_cons_succ]
        exact (ih n m (by omega) (by omega)).cons a

lemma fyStep_length (l : List LonLat) (i j : ℕ) :
    (fyStep l i j).length = l.length := by
  unfold fyStep
  rw [List.length_set, List.length_set]

lemma fyAux_perm (js : ℕ → ℕ) :
    ∀ (k : ℕ) (l : List LonLat), k < l.length → (fyAux js k l).Perm l := by
  intro k
  induction k with
  | zero =>
    intro l _
    exact List.Perm.refl _
  | succ i ih =>
    intro l hl
    have hj : js (i + 1) % (i + 2) < l.length := by
      have := Nat.mod_lt (js (i + 1)) (show 0 < i + 2 by omega)
      omega
    have hstep := fyStep_perm l (i + 1) (js (i + 1) % (i + 2)) hl hj
    have hlen := fyStep_length l (i + 1) (js (i + 1) % (i + 2))
    exact (ih _ (by omega)).trans hstep

lemma fisherYates_perm (js : ℕ → ℕ) (l : List LonLat) :
    (fisherYates js l).Perm l := by
  unfold fisherYates
  rcases Nat.eq_zero_or_pos l.length with h0 | hpos
  · have h : l.length - 1 = 0 := by omega
    rw [h]
    exact List.Perm.refl _
  · exact fyAux_perm js (l.length - 1) l (by omega)

lemma fisherYates_length (js : ℕ → ℕ) (l : List LonLat) :
    (fisherYates js l).length = l.length :=
  (fisherYates_perm js l).length_eq

/-- The return object of `meanNearestNeighborDistance`. -/
structure NNDResult where
  mean_m : Option ℝ
  used_n : ℕ
  capped : Bool

/-- Embedding of `meanNearestNeighborDistance` (`routes.wells.js`): below 2
points the result is `{mean_m: null, used_n: n, capped: false}`; above the
cap the working set is the first `cap` points of the Fisher-Yates shuffle of
the input (random draws supplied by `js`); otherwise the working set is the
whole input.  The mean is the total of the per-point minimum distances
divided by the working-set size.  (For working sets of fewer than 2 points -
unreachable in the pipeline, whose caps are 1200/1500 - the JS mean would be
a NaN/Infinity sentinel; there the real-valued embedding is not asserted.) -/
noncomputable def meanNearestNeighborDistance
    (pointsLonLat : List LonLat) (cap : ℕ) (js : ℕ → ℕ) : NNDResult :=
  if pointsLonLat.length < 2 then ⟨none, pointsLonLat.length, false⟩
  else if cap < pointsLonLat.length then
    ⟨some (nndTotal ((fisherYates js pointsLonLat).take cap) /
        ((((fisherYates js pointsLonLat).take cap).length : ℕ) : ℝ)),
      ((fisherYates js pointsLonLat).take cap).length, true⟩
  else ⟨some (nndTotal pointsLonLat / ((pointsLonLat.length : ℕ) : ℝ)),
    pointsLonLat.length, false⟩

lemma sum_map_range_eq_finset (f : ℕ → ℝ) :
    ∀ n : ℕ, ((List.range n).map f).sum = ∑ i ∈ Finset.range n, f i := by
  intro n
  induction n with
  | zero => simp
  | succ m ih =>
    rw [List.range_succ, List.map_append, List.sum_append, Finset.sum_range_succ, ih]
    simp

lemma nndTotal_eq_finset (l : List LonLat) :
    nndTotal l = ∑ i ∈ Finset.range l.length, minDist (l.getD i (0, 0)) (l.eraseIdx i) :=
  sum_map_range_eq_finset _ _

lemma take_cap_length (js : ℕ → ℕ) (pts : List LonLat) (cap : ℕ)
    (h : cap < pts.length) : ((fisherYates js pts).take cap).length = cap := by
  rw [List.length_take, fisherYates_length]
  omega

/-- C6: `meanNearestNeighborDistance` on fewer than 2 points returns a null
mean with `used_n` the input size and `capped = false`; when the input size
exceeds the cap it works on a size-`cap` sub-multiset of the input (the
prefix of the shuffled input) with `used_n = cap` and `capped = true`;
otherwise it works on the full input with `capped = false`; and on every
working set of size at least 2 the mean is the arithmetic mean over the
working set of each point's minimum haversine distance to the other points
of the same working set. -/
theorem c6_meanNND_spec (pts : List LonLat) (cap : ℕ) (js : ℕ → ℕ) :
    (pts.length < 2 →
      meanNearestNeighborDistance pts cap js = ⟨none, pts.length, false⟩) ∧
    (2 ≤ pts.length → cap < pts.length →
      (meanNearestNeighborDistance pts cap js).used_n = cap ∧
      (meanNearestNeighborDistance pts cap js).capped = true ∧
      ((fisherYates js pts).take cap).Subperm pts ∧
      (2 ≤ cap → (meanNearestNeighborDistance pts cap js).mean_m =
        some ((∑ i ∈ Finset.range cap,
          minDist (((fisherYates js pts).take cap).getD i (0, 0))
            (((fisherYates js pts).take cap).eraseIdx i)) / ((cap : ℕ) : ℝ)))) ∧
    (2 ≤ pts.length → pts.length ≤ cap →
      meanNearestNeighborDistance pts cap js =
        ⟨some ((∑ i ∈ Finset.range pts.length,
            minDist (pts.getD i (0, 0)) (pts.eraseIdx i)) / ((pts.length : ℕ) : ℝ)),
          pts.length, false⟩) := by
  refine ⟨fun h => ?_, fun h2 hcap => ?_, fun h2 hle => ?_⟩
  · rw [meanNearestNeighborDistance, if_pos h]
  · have htl := take_cap_length js pts cap hcap
    rw [meanNearestNeighborDistance, if_neg (by omega), if_pos hcap]
    refine ⟨htl, rfl, ?_, fun _ => ?_⟩
    · exact ((List.take_sublist cap _).subperm).trans (fisherYates_perm js pts).subperm
    · rw [nndTotal_eq_finset, htl]
  · rw [meanNearestNeighborDistance, if_neg (by omega), if_neg (by omega),
      nndTotal_eq_finset]

/-- Witness for C6 on a concrete 3-point uncapped input. -/
theorem c6_witness :
    meanNearestNeighborDistance ([(0, 0), (1, 0), (2, 0)] : List LonLat) 5 (fun _ => 0) =
      ⟨some ((∑ i ∈ Finset.range ([(0, 0), (1, 0), (2, 0)] : List LonLat).length,
          minDist (([(0, 0), (1, 0), (2, 0)] : List LonLat).getD i (0, 0))
            (([(0, 0), (1, 0), (2, 0)] : List LonLat).eraseIdx i)) /
        ((([(0, 0), (1, 0), (2, 0)] : List LonLat).length : ℕ) : ℝ)),
        ([(0, 0), (1, 0), (2, 0)] : List LonLat).length, false⟩ :=
  (c6_meanNND_spec ([(0, 0), (1, 0), (2, 0)] : List LonLat) 5 (fun _ => 0)).2.2
    (by decide) (by decide)

/-- Embedding of the NNI block of `POST /wells/polygon/stats`
(`routes.wells.js` 506-520): the density is
`lambda = points.length / area_m2` when `area_m2 > 0` and null otherwise;
the cap is the two-tier policy (1200 above 4000 points, else 1500);
`expected_mean_nnd_m = 1 / (2 * sqrt(lambda))` and
`nni = mean_nnd_m / expected_mean_nnd_m`, both null unless the observed
mean and `lambda` are available and `lambda > 0`.  Returns the triple
`(mean_nnd_m, expected_mean_nnd_m, nni)`. -/
noncomputable def statsNNI (points : List LonLat) (area_m2 : ℝ) (js : ℕ → ℕ) :
    Option ℝ × Option ℝ × Option ℝ :=
  match (meanNearestNeighborDistance points
      (if 4000 < points.length then 1200 else 1500) js).mean_m,
    (if 0 < area_m2 then some (((points.length : ℕ) : ℝ) / area_m2) else none) with
  | some m, some lv =>
    if 0 < lv then
      (some m, some (1 / (2 * Real.sqrt lv)), some (m / (1 / (2 * Real.sqrt lv))))
    else (some m, none, none)
  | mo, _ => (mo, none, none)

/-- C7: the Clark-Evans NNI is null whenever the density or the observed mean
is unavailable - in particular when the polygon area is not positive, or when
fewer than 2 points have coordinates; otherwise the expected mean
nearest-neighbor distance is `1 / (2 * sqrt(lambda))` with
`lambda = pointCount / areaMeters2`, and the NNI is the observed mean divided
by that expected mean. -/
theorem c7_nni_spec (points : List LonLat) (area : ℝ) (js : ℕ → ℕ) :
    (¬ 0 < area → (statsNNI points area js).2.1 = none ∧
      (statsNNI points area js).2.2 = none) ∧
    (points.length < 2 → (statsNNI points area js).2.2 = none) ∧
    (2 ≤ points.length → 0 < area →
      (statsNNI points area js).1.isSome = true ∧
      (statsNNI points area js).2.1 =
        some (1 / (2 * Real.sqrt ((((points.length : ℕ) : ℝ)) / area))) ∧
      (statsNNI points area js).2.2 =
        (statsNNI points area js).1.map
          (fun m => m / (1 / (2 * Real.sqrt ((((points.length : ℕ) : ℝ)) / area))))) := by
  refine ⟨fun harea => ?_, fun hlen => ?_, fun hlen harea => ?_⟩
  · have hl : (if 0 < area then some (((points.length : ℕ) : ℝ) / area) else none) = none :=
      if_neg harea
    cases hm : (meanNearestNeighborDistance points
        (if 4000 < points.length then 1200 else 1500) js).mean_m <;>
      simp [statsNNI, hl, hm]
  · have hm : (meanNearestNeighborDistance points
        (if 4000 < points.length then 1200 else 1500) js).mean_m = none := by
      rw [meanNearestNeighborDistance, if_pos hlen]
    cases hl : (if 0 < area then some (((points.length : ℕ) : ℝ) / area) else none) <;>
      simp [statsNNI, hl, hm]
  · have hl : (if 0 < area then some (((points.length : ℕ) : ℝ) / area) else none) =
        some (((points.length : ℕ) : ℝ) / area) := if_pos harea
    obtain ⟨m, hm⟩ : ∃ m, (meanNearestNeighborDistance points
        (if 4000 < points.length then 1200 else 1500) js).mean_m = some m := by
      rw [meanNearestNeighborDistance, if_neg (by omega)]
      split <;> split <;> exact ⟨_, rfl⟩
    have hlv : 0 < (((points.length : ℕ) : ℝ)) / area := by
      apply div_pos _ harea
      exact_mod_cast (by omega : 0 < points.length)
    simp [statsNNI, hl, hm, if_pos hlv]

/-- Witness for C7 on a 2-point set in a unit-area polygon. -/
theorem c7_witness :
    (statsNNI ([(0, 0), (1, 0)] : List LonLat) 1 (fun _ => 0)).1.isSome = true ∧
    (statsNNI ([(0, 0), (1, 0)] : List LonLat) 1 (fun _ => 0)).2.1 =
      some (1 / (2 * Real.sqrt
        (((([(0, 0), (1, 0)] : List LonLat).length : ℕ) : ℝ) / 1))) ∧
    (statsNNI ([(0, 0), (1, 0)] : List LonLat) 1 (fun _ => 0)).2.2 =
      (statsNNI ([(0, 0), (1, 0)] : List LonLat) 1 (fun _ => 0)).1.map
        (fun m => m / (1 / (2 * Real.sqrt
          (((([(0, 0), (1, 0)] : List LonLat).length : ℕ) : ℝ) / 1)))) :=
  c7_nni_spec ([(0, 0), (1, 0)] : List LonLat) 1 (fun _ => 0) |>.2.2
    (by decide) one_pos

lemma zip_tail_sum_eq (f : LonLat × LonLat → ℝ) :
    ∀ l : List LonLat, ((l.zip l.tail).map f).sum =
      ∑ i ∈ Finset.range (l.length - 1), f (l.getD i (0, 0), l.getD (i + 1) (0, 0)) := by
  intro l
  induction l with
  | nil => simp
  | cons a t ih =>
    cases t with
    | nil => simp
    | cons b t2 =>
      have hlen : (a :: b :: t2).length - 1 = t2.length + 1 := by
        simp only [List.length_cons]
        omega
      rw [hlen]
      rw [Finset.sum_range_succ']
      have hz : ((a :: b :: t2).zip (a :: b :: t2).tail) =
          (a, b) :: ((b :: t2).zip (b :: t2).tail) := by
        simp [List.zip_cons_cons]
      rw [hz, List.map_cons, List.sum_cons, ih]
      have hcongr : ∀ k ∈ Finset.range ((b :: t2).length - 1),
          f ((b :: t2).getD k (0, 0), (b :: t2).getD (k + 1) (0, 0)) =
            f ((a :: b :: t2).getD (k + 1) (0, 0), (a :: b :: t2).getD (k + 2) (0, 0)) := by
        intro k _
        simp [List.getD_cons_succ]
      have hlen2 : (b :: t2).length - 1 = t2.length := by
        simp only [List.length_cons]
        omega
      rw [Finset.sum_congr rfl hcongr, hlen2]
      simp only [List.getD_cons_zero, List.getD_cons_succ]
      ring

/-- C8: `polygonAreaMeters2` applied to any closed ring accumulates
`(lon2 - lon1) * (2 + sin(lat1) + sin(lat2))` in radians over each
consecutive edge and returns `|sum| * R² / 2` with `R = 6378137`; the result
is always nonnegative. -/
theorem c8_polygonArea_spec (ring : List LonLat)
    (_hclosed : ring.head? = ring.getLast?) :
    polygonAreaMeters2 ring =
      |∑ i ∈ Finset.range (ring.length - 1),
        (toRad (ring.getD (i + 1) (0, 0)).1 - toRad (ring.getD i (0, 0)).1) *
          (2 + Real.sin (toRad (ring.getD i (0, 0)).2) +
            Real.sin (toRad (ring.getD (i + 1) (0, 0)).2))| *
        ((6378137 : ℝ) * 6378137) / 2 ∧
    0 ≤ polygonAreaMeters2 ring := by
  constructor
  · unfold polygonAreaMeters2
    rw [zip_tail_sum_eq]
  · unfold polygonAreaMeters2
    positivity

/-- Witness for C8 at a concrete closed triangle ring. -/
theorem c8_witness :
    polygonAreaMeters2 ([(0, 0), (1, 0), (0, 1), (0, 0)] : List LonLat) =
      |∑ i ∈ Finset.range (([(0, 0), (1, 0), (0, 1), (0, 0)] : List LonLat).length - 1),
        (toRad (([(0, 0), (1, 0), (0, 1), (0, 0)] : List LonLat).getD (i + 1) (0, 0)).1 -
            toRad (([(0, 0), (1, 0), (0, 1), (0, 0)] : List LonLat).getD i (0, 0)).1) *
          (2 + Real.sin (toRad (([(0, 0), (1, 0), (0, 1), (0, 0)] : List LonLat).getD
              i (0, 0)).2) +
            Real.sin (toRad (([(0, 0), (1, 0), (0, 1), (0, 0)] : List LonLat).getD
              (i + 1) (0, 0)).2))| *
        ((6378137 : ℝ) * 6378137) / 2 ∧
    0 ≤ polygonAreaMeters2 ([(0, 0), (1, 0), (0, 1), (0, 0)] : List LonLat) :=
  c8_polygonArea_spec ([(0, 0), (1, 0), (0, 1), (0, 0)] : List LonLat) (by decide)
